import Mathlib

/-!
# Verification of `simple-qiniu-upload` (src/src/index.js)

A shallow embedding of the upload tool's core logic:

* the key mapper (`resolveBase`, `mapKey`) — `src/src/index.js` lines 79-81 and 229-230;
* the upload-task outcome logic (`taskOutcome`) — lines 237-262;
* the bounded worker pool of `start` as a small-step state machine — lines 152-224;
* the paginated lister (`fetchLoop`, `fetchUploadedFiles`) — lines 266-312;
* the batch deleter (`deleteFilesRun`) — lines 314-343;
* the report-write callback (`reportWriteCallback`) — lines 165-171.

JavaScript-specific semantics that matter here are modelled explicitly:
`String.prototype.replace` with a string pattern replaces only the first
occurrence; empty strings and `undefined` are falsy; `Array.prototype.pop`
removes the last element; a plain `function` callback invoked without a
receiver gets the global object as `this` (sloppy mode), so `this.log` /
`this.error` inside such callbacks is `undefined` and calling it throws a
`TypeError`.
-/

namespace SimpleQiniuUpload

/-! ## JS string replace (first occurrence), on `List Char` -/

/-- JS `s.replace(pat, '')` with a string pattern: remove the first
occurrence of `pat` from `s`; if `pat` does not occur, `s` is unchanged.
(For the empty pattern JS replaces the empty occurrence at index 0 with
the empty string, leaving `s` unchanged, which this definition matches.) -/
def replFirst (pat : List Char) : List Char → List Char
  | [] => []
  | c :: rest =>
    if pat.isPrefixOf (c :: rest) then (c :: rest).drop pat.length
    else c :: replFirst pat rest

theorem isPrefixOf_append_self (p r : List Char) : p.isPrefixOf (p ++ r) = true := by
  induction p with
  | nil => simp [List.isPrefixOf]
  | cons a as ih => simp [List.isPrefixOf, ih]

/-- Removing the first occurrence of `p` from `p ++ r` leaves exactly `r`:
the occurrence at index 0 is the first one. -/
theorem replFirst_append_self (p r : List Char) : replFirst p (p ++ r) = r := by
  cases p with
  | nil =>
    cases r with
    | nil => rfl
    | cons c cs => simp [replFirst, List.isPrefixOf]
  | cons a as =>
    have h1 : (a :: as).isPrefixOf (a :: (as ++ r)) = true := by
      simp
    show replFirst (a :: as) (a :: (as ++ r)) = r
    rw [replFirst, if_pos h1]
    simp

theorem mem_of_isPrefixOf {p l : List Char} (h : p.isPrefixOf l = true) :
    ∀ c ∈ p, c ∈ l := by
  induction p generalizing l with
  | nil => intro c hc; simp at hc
  | cons a as ih =>
    cases l with
    | nil => simp [List.isPrefixOf] at h
    | cons b bs =>
      simp only [List.isPrefixOf, Bool.and_eq_true, beq_iff_eq] at h
      intro c hc
      rcases List.mem_cons.mp hc with hca | hcas
      · exact List.mem_cons.mpr (Or.inl (hca.trans h.1))
      · exact List.mem_cons.mpr (Or.inr (ih h.2 c hcas))

theorem isPrefixOf_eq_false_of_head {a b : Char} {p l : List Char}
    (hp : p.head? = some a) (hl : l.head? = some b) (hab : a ≠ b) :
    p.isPrefixOf l = false := by
  cases p with
  | nil => simp at hp
  | cons x xs =>
    cases l with
    | nil => simp at hl
    | cons y ys =>
      simp only [List.head?_cons, Option.some.injEq] at hp hl
      subst hp; subst hl
      simp [List.isPrefixOf, beq_eq_false_iff_ne, hab]

/-! ## Key mapper

`src/src/index.js`:
```
resolveBase() {
    return path.resolve(this.config.cwd, this.config.base).replace(/\\/g, '/') + '/'
}
...
let base = this.resolveBase()
let key = file.replace(base, '')
```
`path.resolve` (Node standard library, external to the repository) always
returns an absolute path; on posix, after the backslash normalization, it
is a string starting with `'/'`. We take that resolved, slash-normalized
directory string as the input and model the repository's own code: the
trailing-slash append and the first-occurrence `replace`. -/

/-- `resolveBase`: the resolved base directory with a trailing `'/'` appended. -/
def resolveBase (resolvedDir : String) : String := resolvedDir ++ "/"

/-- `let key = file.replace(base, '')` (line 230). -/
def mapKey (base file : String) : String := ⟨replFirst base.data file.data⟩

theorem mapKey_append (base rest : String) :
    mapKey base (base ++ rest) = rest := by
  show String.mk (replFirst base.data (base ++ rest).data) = rest
  rw [String.data_append, replFirst_append_self]

/-- `"a/b.js"` contains no occurrence of a pattern that starts with `'/'`,
ends with `'/'` and has length at least 2, so `replace` leaves it unchanged. -/
theorem replFirst_abjs (B : List Char) (hh : B.head? = some '/')
    (hm : '/' ∈ B.tail) :
    replFirst B ('a' :: '/' :: 'b' :: '.' :: 'j' :: 's' :: []) =
      'a' :: '/' :: 'b' :: '.' :: 'j' :: 's' :: [] := by
  obtain ⟨tl, hB⟩ : ∃ tl, B = '/' :: tl := by
    cases B with
    | nil => simp at hh
    | cons x xs =>
      simp only [List.head?_cons, Option.some.injEq] at hh
      exact ⟨xs, by rw [hh]⟩
  subst hB
  simp only [List.tail_cons] at hm
  have h2 : ('/' :: tl).isPrefixOf ('/' :: 'b' :: '.' :: 'j' :: 's' :: []) = false := by
    cases htl : tl.isPrefixOf ('b' :: '.' :: 'j' :: 's' :: []) with
    | false => simp [List.isPrefixOf, htl]
    | true =>
      have : ('/' : Char) ∈ ('b' :: '.' :: 'j' :: 's' :: []) :=
        mem_of_isPrefixOf htl '/' hm
      simp at this
  have h1 : ('/' :: tl).isPrefixOf ('a' :: '/' :: 'b' :: '.' :: 'j' :: 's' :: []) = false :=
    isPrefixOf_eq_false_of_head rfl rfl (by decide)
  have h3 : ('/' :: tl).isPrefixOf ('b' :: '.' :: 'j' :: 's' :: []) = false :=
    isPrefixOf_eq_false_of_head rfl rfl (by decide)
  have h4 : ('/' :: tl).isPrefixOf ('.' :: 'j' :: 's' :: []) = false :=
    isPrefixOf_eq_false_of_head rfl rfl (by decide)
  have h5 : ('/' :: tl).isPrefixOf ('j' :: 's' :: []) = false :=
    isPrefixOf_eq_false_of_head rfl rfl (by decide)
  have h6 : ('/' :: tl).isPrefixOf ('s' :: []) = false :=
    isPrefixOf_eq_false_of_head rfl rfl (by decide)
  simp [replFirst, h1, h2, h3, h4, h5, h6]

/-- C3: for every resolved absolute base directory `d` (a string starting
with `'/'`), the key mapping is prefix-correct — mapping any file of the
form `base ++ rest` yields `rest`, in particular `base ++ "a/b.js"` yields
`"a/b.js"` — and idempotent on that result: mapping `"a/b.js"` again
leaves it unchanged. -/
theorem key_mapping_correct (d : String) (hd : d.data.head? = some '/') :
    (∀ rest : String, mapKey (resolveBase d) (resolveBase d ++ rest) = rest) ∧
    mapKey (resolveBase d) (resolveBase d ++ "a/b.js") = "a/b.js" ∧
    mapKey (resolveBase d) "a/b.js" = "a/b.js" := by
  refine ⟨fun rest => mapKey_append _ rest, mapKey_append _ _, ?_⟩
  show String.mk (replFirst (resolveBase d).data "a/b.js".data) = "a/b.js"
  have hdata : (resolveBase d).data = d.data ++ ['/'] := by
    show (d ++ "/").data = d.data ++ ['/']
    rw [String.data_append]
  obtain ⟨tl, htl⟩ : ∃ tl, d.data = '/' :: tl := by
    cases hc : d.data with
    | nil => rw [hc] at hd; simp at hd
    | cons x xs =>
      rw [hc] at hd
      simp only [List.head?_cons, Option.some.injEq] at hd
      exact ⟨xs, by rw [hd]⟩
  have habjs : "a/b.js".data = 'a' :: '/' :: 'b' :: '.' :: 'j' :: 's' :: [] := rfl
  rw [hdata, htl, habjs]
  rw [replFirst_abjs ('/' :: tl ++ ['/']) (by rfl) (by simp)]

/-- Witness for C3 at the concrete resolved base `"/proj/dist"`. -/
theorem key_mapping_correct_witness :
    mapKey (resolveBase "/proj/dist") (resolveBase "/proj/dist" ++ "a/b.js") = "a/b.js" ∧
    mapKey (resolveBase "/proj/dist") "a/b.js" = "a/b.js" := by
  have h := key_mapping_correct "/proj/dist" rfl
  exact ⟨h.2.1, h.2.2⟩

/-! ## Batch deleter

`src/src/index.js` lines 314-343:
```
deleteFiles(files) {
    let del = () => {
        let operations = files.splice(0, 100).map(key => qiniu.rs.deleteOp(this.config.bucket, key))
        if (operations.length === 0) return
        this.bucketManager.batch(operations, function (err, respBody, respInfo) {
            if (err) {
                this.error(errorStyle(err));
            } else { ... console.log ... }
            del()
        })
    }
    del()
}
```
`files.splice(0, 100)` removes and returns the first (at most) 100 keys,
so each iteration submits one batch of `files.take 100` and continues on
`files.drop 100`; the loop stops when the extracted batch is empty.

The callback passed to `bucketManager.batch` is a plain `function`
expression, so when the SDK invokes it, `this` inside it is the global
object (sloppy mode) — not the `Uploader` instance (`del` itself is an
arrow function, which is why `this.bucketManager` works *outside* the
callback). The global object has no `error` method, so on a batch-level
error `this.error(...)` throws a `TypeError` before `del()` is reached,
and no further batch is submitted. `errOn b = true` models "the SDK
reports an error `err` for the batch call on `b`"; the result is the list
of batches actually submitted, paired with `true` when the callback threw
the `TypeError`. -/

def deleteFilesRun (errOn : List String → Bool) (files : List String) :
    List (List String) × Bool :=
  if h : files = [] then ([], false)
  else if errOn (files.take 100) then ([files.take 100], true)
  else (files.take 100 :: (deleteFilesRun errOn (files.drop 100)).1,
        (deleteFilesRun errOn (files.drop 100)).2)
termination_by files.length
decreasing_by
all_goals
  simp only [List.length_drop]
  have : files.length ≠ 0 := fun hz => h (List.eq_nil_of_length_eq_zero hz)
  omega

theorem deleteFilesRun_join (errOn : List String → Bool) (files : List String)
    (hok : ∀ b, errOn b = false) :
    (deleteFilesRun errOn files).1.flatten = files ∧
    (deleteFilesRun errOn files).2 = false := by
  rw [deleteFilesRun]
  split
  · simp [*]
  · rw [if_neg (by simp [hok])]
    have ih := deleteFilesRun_join errOn (files.drop 100) hok
    simp [ih.1, ih.2, List.take_append_drop]
termination_by files.length
decreasing_by
  have hne : files ≠ [] := by assumption
  have : files.length ≠ 0 := fun hz => hne (List.eq_nil_of_length_eq_zero hz)
  simp only [List.length_drop]
  omega

theorem deleteFilesRun_batch_le (errOn : List String → Bool) (files : List String) :
    ∀ b ∈ (deleteFilesRun errOn files).1, b.length ≤ 100 := by
  rw [deleteFilesRun]
  split
  · simp
  · split
    · intro b hb
      simp only [List.mem_singleton] at hb
      subst hb
      exact List.length_take_le _ _
    · intro b hb
      simp only [List.mem_cons] at hb
      rcases hb with hb | hb
      · subst hb; exact List.length_take_le _ _
      · exact deleteFilesRun_batch_le errOn (files.drop 100) b hb
termination_by files.length
decreasing_by
  have hne : files ≠ [] := by assumption
  have : files.length ≠ 0 := fun hz => hne (List.eq_nil_of_length_eq_zero hz)
  simp only [List.length_drop]
  omega

theorem deleteFilesRun_sizes_250 (errOn : List String → Bool) (files : List String)
    (hok : ∀ b, errOn b = false) (hlen : files.length = 250) :
    (deleteFilesRun errOn files).1.map List.length = [100, 100, 50] := by
  have h0 : files ≠ [] := fun hnil => by rw [hnil] at hlen; simp at hlen
  rw [deleteFilesRun, dif_neg h0, if_neg (by simp [hok])]
  have hlen1 : (files.drop 100).length = 150 := by
    rw [List.length_drop, hlen]
  have h1 : files.drop 100 ≠ [] := fun hnil => by rw [hnil] at hlen1; simp at hlen1
  rw [deleteFilesRun, dif_neg h1, if_neg (by simp [hok])]
  have hlen2 : ((files.drop 100).drop 100).length = 50 := by
    rw [List.length_drop, hlen1]
  have h2 : (files.drop 100).drop 100 ≠ [] := fun hnil => by
    rw [hnil] at hlen2; simp at hlen2
  rw [deleteFilesRun, dif_neg h2, if_neg (by simp [hok])]
  have hlen3 : (((files.drop 100).drop 100).drop 100).length = 0 := by
    rw [List.length_drop, hlen2]
  have h3 : ((files.drop 100).drop 100).drop 100 = [] :=
    List.eq_nil_of_length_eq_zero hlen3
  rw [deleteFilesRun, dif_pos h3]
  simp only [List.map_cons, List.map_nil, List.length_take, hlen, hlen1, hlen2]
  decide

/-- C6: `deleteFiles` partitions its input key list into consecutive
batches of at most 100 keys, in order (their concatenation is the input
list), one bulk-delete call per batch; on 250 keys it issues exactly three
batches of sizes 100, 100 and 50. (Stated on the runs in which no batch
call reports an error; a batch error is claim C7's concern.) -/
theorem deleteFiles_batches (files : List String) (hlen : files.length = 250) :
    (deleteFilesRun (fun _ => false) files).1.map List.length = [100, 100, 50] ∧
    (deleteFilesRun (fun _ => false) files).1.flatten = files ∧
    (∀ b ∈ (deleteFilesRun (fun _ => false) files).1, b.length ≤ 100) := by
  refine ⟨deleteFilesRun_sizes_250 _ _ (fun _ => rfl) hlen, ?_, ?_⟩
  · exact (deleteFilesRun_join _ _ (fun _ => rfl)).1
  · exact deleteFilesRun_batch_le _ _

/-- Witness for C6 on a concrete list of 250 keys. -/
theorem deleteFiles_batches_witness :
    (deleteFilesRun (fun _ => false) (List.replicate 250 "k")).1.map List.length
      = [100, 100, 50] :=
  (deleteFiles_batches (List.replicate 250 "k") (by rw [List.length_replicate])).1

/-- C7 (counter-evidence): when the first bulk-delete call reports a
batch-level error, the plain-`function` callback's `this.error(...)`
throws a `TypeError` (`this` is the global object, which has no `error`
method), so `del()` is never re-invoked: of 250 keys only the first batch
of 100 is ever submitted, and the remaining two batches are never issued. -/
theorem batch_error_stops_deletion :
    deleteFilesRun (fun _ => true) (List.replicate 250 "k")
      = ([List.replicate 100 "k"], true) := by
  have h0 : List.replicate 250 "k" ≠ ([] : List String) := by
    intro hnil
    have hl := congrArg List.length hnil
    rw [List.length_replicate, List.length_nil] at hl
    exact absurd hl (by omega)
  rw [deleteFilesRun, dif_neg h0, if_pos rfl, List.take_replicate]
  norm_num

/-! ## Paginated lister

`src/src/index.js` lines 266-296:
```
fetchUploadedFiles({ limit = 50, prefix, storageAs = ..., append = false } = {}) {
    if (!prefix) return
    let files = []
    new Promise((resolve, reject) => {
        let run = ({ marker = '', pageIndex = 1 } = {}) => {
            this._fetch({ limit, prefix, marker }).then(respBody => {
                respBody.items.forEach(function (item) { files.push(item.key) })
                if (respBody.marker) {
                    run({ marker: respBody.marker, pageIndex: pageIndex + 1 })
                } else {
                    resolve()
                }
            }).catch(reject)
        }
        run()
    }).then(() => { this.deleteFiles(files) })
}
```
Each `_fetch` call receives the marker returned by the previous response
(the first call uses the default `marker = ''`); the keys of each page are
appended to `files`; the loop stops exactly when the response's `marker`
is falsy (the empty string). The method body never returns the promise —
there is no `return` statement after the first line — so the method's
value is `undefined` in every case. -/

structure ListItem where
  key : String

/-- A response body of `listPrefix`: the page's items and the
continuation marker (empty string = no further page). -/
structure ListPage where
  items : List ListItem
  marker : String

/-- The pagination loop: returns the keys collected across pages together
with the list of markers passed to `_fetch`, one entry per list call, in
order. `fuel` bounds the recursion (the JS loop has no such bound and
would recurse forever on a cyclic marker sequence); `none` means the page
sequence did not terminate within `fuel` calls. -/
def fetchLoop (fetch : String → ListPage) : Nat → String → Option (List String × List String)
  | 0, _ => none
  | fuel + 1, marker =>
    let p := fetch marker
    if p.marker ≠ "" then
      match fetchLoop fetch fuel p.marker with
      | none => none
      | some (keys, calls) => some (p.items.map ListItem.key ++ keys, marker :: calls)
    else some (p.items.map ListItem.key, [marker])

/-- C5: the pagination threads each response's marker into the next call
and stops exactly on the empty marker: for any page oracle whose
responses carry markers `"m1"`, `"m2"`, `""` in order, the loop makes
exactly the three calls with markers `""`, `"m1"`, `"m2"` and collects
the keys of all three pages in order. -/
theorem pagination_three_pages (fetch : String → ListPage) (p1 p2 p3 : ListPage)
    (h1 : fetch "" = p1) (h2 : fetch "m1" = p2) (h3 : fetch "m2" = p3)
    (hm1 : p1.marker = "m1") (hm2 : p2.marker = "m2") (hm3 : p3.marker = "")
    (fuel : Nat) (hfuel : 3 ≤ fuel) :
    fetchLoop fetch fuel "" =
      some (p1.items.map ListItem.key ++
              (p2.items.map ListItem.key ++ p3.items.map ListItem.key),
            ["", "m1", "m2"]) := by
  obtain ⟨k, rfl⟩ : ∃ k, fuel = k + 3 := ⟨fuel - 3, by omega⟩
  show fetchLoop fetch (k + 2 + 1) "" = _
  rw [fetchLoop]
  simp only [h1, hm1]
  rw [if_pos (by decide)]
  show (match fetchLoop fetch (k + 1 + 1) "m1" with
        | none => none
        | some (keys, calls) =>
            some (p1.items.map ListItem.key ++ keys, "" :: calls)) = _
  rw [fetchLoop]
  simp only [h2, hm2]
  rw [if_pos (by decide)]
  show (match (match fetchLoop fetch (k + 1) "m2" with
               | none => none
               | some (keys, calls) =>
                   some (p2.items.map ListItem.key ++ keys, "m1" :: calls)) with
        | none => none
        | some (keys, calls) =>
            some (p1.items.map ListItem.key ++ keys, "" :: calls)) = _
  cases k with
  | zero =>
    rw [fetchLoop]
    simp only [h3, hm3]
    rw [if_neg (by decide)]
  | succ k =>
    rw [fetchLoop]
    simp only [h3, hm3]
    rw [if_neg (by decide)]

/-- A concrete three-page oracle for the C5 witness. -/
def demoFetch : String → ListPage := fun m =>
  if m = "" then ⟨[⟨"k1"⟩], "m1"⟩
  else if m = "m1" then ⟨[⟨"k2"⟩], "m2"⟩
  else ⟨[⟨"k3"⟩], ""⟩

/-- Witness for C5 on the concrete oracle. -/
theorem pagination_three_pages_witness :
    fetchLoop demoFetch 3 "" = some (["k1", "k2", "k3"], ["", "m1", "m2"]) :=
  pagination_three_pages demoFetch ⟨[⟨"k1"⟩], "m1"⟩ ⟨[⟨"k2"⟩], "m2"⟩ ⟨[⟨"k3"⟩], ""⟩
    rfl rfl rfl rfl rfl rfl 3 (by omega)

/-- The observable behaviour of a `fetchUploadedFiles` invocation:
its JS return value (`none` models `undefined`; `some ()` would model a
returned promise), the number of `listPrefix` calls and the number of
bulk-delete (`batch`) calls issued. When the pagination runs out of
fuel the model charges `fuel` list calls and no delete. `errOn` is the
batch-error oracle of the subsequent `deleteFiles` run. -/
structure FetchEffects where
  retVal : Option Unit
  listCalls : Nat
  deleteCalls : Nat

/-- `fetchUploadedFiles` (lines 266-296): `prefix` is `none` when the
argument is absent (`undefined`); `!prefix` is true for `undefined` and
for the empty string. The method never returns the promise it builds. -/
def fetchUploadedFiles (pre : Option String) (fetch : String → ListPage)
    (errOn : List String → Bool) (fuel : Nat) : FetchEffects :=
  match pre with
  | none => ⟨none, 0, 0⟩
  | some p =>
    if p = "" then ⟨none, 0, 0⟩
    else
      match fetchLoop fetch fuel "" with
      | none => ⟨none, fuel, 0⟩
      | some (keys, calls) => ⟨none, calls.length, (deleteFilesRun errOn keys).1.length⟩

/-- C10: with an absent or falsy `prefix`, `fetchUploadedFiles` returns
immediately without issuing any list or delete call; and in every case
its return value is `undefined` (never a promise), so callers cannot
await or chain it. -/
theorem fetchUploadedFiles_returns_undefined (pre : Option String)
    (fetch : String → ListPage) (errOn : List String → Bool) (fuel : Nat) :
    (fetchUploadedFiles pre fetch errOn fuel).retVal = none ∧
    ((pre = none ∨ pre = some "") →
      (fetchUploadedFiles pre fetch errOn fuel).listCalls = 0 ∧
      (fetchUploadedFiles pre fetch errOn fuel).deleteCalls = 0) := by
  constructor
  · cases pre with
    | none => rfl
    | some p =>
      simp only [fetchUploadedFiles]
      split
      · rfl
      · split <;> rfl
  · rintro (rfl | rfl)
    · exact ⟨rfl, rfl⟩
    · exact ⟨rfl, rfl⟩

/-- Witness for C10 with the prefix argument absent. -/
theorem fetchUploadedFiles_returns_undefined_witness :
    (fetchUploadedFiles none demoFetch (fun _ => false) 5).retVal = none ∧
    (fetchUploadedFiles none demoFetch (fun _ => false) 5).listCalls = 0 ∧
    (fetchUploadedFiles none demoFetch (fun _ => false) 5).deleteCalls = 0 := by
  have h := fetchUploadedFiles_returns_undefined none demoFetch (fun _ => false) 5
  exact ⟨h.1, (h.2 (Or.inl rfl)).1, (h.2 (Or.inl rfl)).2⟩

/-! ## Report-write callback

`src/src/index.js` lines 165-171 (inside `start`):
```
let end = () => {
    this.config.output &&
        fs.writeFile(path.resolve(this.config.cwd, this.config.output),
                     JSON.stringify(results, null, '\t'), function (err) {
            if (err) {
                this.log(errorStyle(`error occured when save upload results. ...`))
            }
        });
    this.log(infoStyle('end<=============='))
}
```
`end` itself is an arrow function (its `this` is the `Uploader`), but the
callback handed to `fs.writeFile` is a plain `function` expression: when
Node invokes it, `this` inside it is the global object (sloppy mode),
which has no `log` method, so on a write error `this.log(...)` throws a
`TypeError` instead of logging. The promise returned by `start` has
already been resolved by `resolve(end())` before the callback fires. -/

inductive CallbackResult
  | ok
  | threw (msg : String)
deriving DecidableEq

/-- What a callback's `this` provides: the `Uploader` instance has the
`log`/`error` methods, the Node global object has neither. -/
structure JsReceiver where
  hasLogMethod : Bool

def nodeGlobalObject : JsReceiver := ⟨false⟩

def uploaderInstance : JsReceiver := ⟨true⟩

/-- The `fs.writeFile` callback `function (err) { if (err) { this.log(...) } }`
evaluated with the receiver that JS actually supplies for `this`. -/
def reportWriteCallback (receiver : JsReceiver) (err : Option String) : CallbackResult :=
  match err with
  | none => .ok
  | some _ =>
    if receiver.hasLogMethod then .ok
    else .threw "TypeError: this.log is not a function"

/-- C9 (counter-evidence for the error-handling part): when the report
write fails, the callback — whose `this` is the global object, not the
uploader — throws a `TypeError` instead of logging the failure; with no
write error the callback is harmless. Had `this` been the uploader
instance, the failure would have been logged as the claim states. -/
theorem report_write_error_throws :
    reportWriteCallback nodeGlobalObject (some "EACCES: permission denied")
      = CallbackResult.threw "TypeError: this.log is not a function" ∧
    reportWriteCallback nodeGlobalObject none = CallbackResult.ok ∧
    reportWriteCallback uploaderInstance (some "EACCES: permission denied")
      = CallbackResult.ok :=
  ⟨rfl, rfl, rfl⟩

/-! ## Upload task outcome

`src/src/index.js` lines 237-262 (the `putFile` callback):
```
formUploader.putFile(..., function (respErr, respBody, respInfo) {
    if (respErr) {
        return reject({ file, key, msg: respErr.message, statck: respErr.stack })
    }
    if (respInfo.statusCode == 200) {
        resolve({ file, key })
    } else {
        let msg = respInfo.data && respInfo.data.error || `code: ${respInfo.statusCode}`
        reject({ file, key, msg: msg, statusCode: respInfo.statusCode, stack: msg })
    }
})
```
-/

/-- The response info seen by the `putFile` callback: the status code and
`respInfo.data && respInfo.data.error`. `none` models `respInfo.data`
being absent or having no `error` field; `some ""` models an empty error
string, which is falsy in JS and therefore also falls back to the
`code: <status>` message. -/
structure RespInfo where
  statusCode : Int
  dataError : Option String

/-- A settled upload task: the promise from `_createUploadTask` either
resolves with `{file, key}` or rejects with `{file, key, msg, ...}`. -/
inductive TaskResult
  | ok (key : String)
  | err (key msg : String)
deriving DecidableEq

def TaskResult.isOk : TaskResult → Bool
  | .ok _ => true
  | .err _ _ => false

/-- The callback's decision, as a function of the connection error
(`respErr`, with its `.message`) and the response info. -/
def taskOutcome (key : String) (respErr : Option String) (info : RespInfo) : TaskResult :=
  match respErr with
  | some e => .err key e
  | none =>
    if info.statusCode = 200 then .ok key
    else
      match info.dataError with
      | some e =>
        if e ≠ "" then .err key e
        else .err key ("code: " ++ toString info.statusCode)
      | none => .err key ("code: " ++ toString info.statusCode)

/-! ## The worker pool of `start` (lines 152-224)

```
return new Promise(resolve => {
    let run = () => {
        logStats()
        let file = targetFiles.pop();
        if (!file) {
            ended.push(1)
            if (ended.length === this.config.parallelCount) { return resolve(end()) }
            return
        }
        stats.uploading++
        this._createUploadTask(file).then(({ key }) => {
            stats.uploading--; stats.success++
            results.success.push({ file, key, skipped: false })
        }).catch(({ key, msg, stack }) => {
            stats.uploading--; stats.fail++
            results.fail.push({ file, key, msg })
        }).then(run)
    }
    let parallelCount = this.config.parallelCount
    while (parallelCount--) { run() }
})
```
We model the event-loop execution as a small-step relation. A state
records the remaining `targetFiles` queue, the files whose upload task is
in flight, the list of files for which an upload was started, the two
result lists, `ended.length`, the number of pending `run` invocations
(the initial `while` loop contributes `parallelCount` of them; each
settled task's `.then(run)` contributes one more), the `stats` counters
and whether `resolve` has been called. `Array.pop` removes the *last*
element of the queue, and `!file` is true both when `pop` returned
`undefined` (empty queue) and when the popped string is empty. The
outcome of each file's task is given by an oracle `String → TaskResult`
(one fixed response per file). Steps may interleave arbitrarily, a
superset of the schedules the single-threaded event loop can produce. -/

structure SuccessEntry where
  file : String
  key : String
  skipped : Bool
deriving DecidableEq

structure FailEntry where
  file : String
  key : String
  msg : String
deriving DecidableEq

structure St where
  queue : List String
  inflight : List String
  started : List String
  success : List SuccessEntry
  fail : List FailEntry
  ended : Nat
  pendingRuns : Nat
  uploading : Nat
  nSuccess : Nat
  nFail : Nat
  resolved : Bool
deriving DecidableEq

/-- The state at the top of the returned `Promise` executor: the full file
list queued, `parallelCount` pending `run()` calls from the `while` loop. -/
def init (W : Nat) (files : List String) : St :=
  ⟨files, [], [], [], [], 0, W, 0, 0, 0, false⟩

/-- `run()` finds a falsy `file`: push into `ended`, resolve when
`ended.length` reaches `parallelCount`. -/
def endWorker (W : Nat) (s : St) : St :=
  { s with pendingRuns := s.pendingRuns - 1, ended := s.ended + 1,
           resolved := s.resolved || (s.ended + 1 == W) }

/-- `run()` pops `f` off the end of the queue (leaving `q'`) and starts
its upload: `stats.uploading++`, task in flight. -/
def startUpload (s : St) (q' : List String) (f : String) : St :=
  { s with queue := q', pendingRuns := s.pendingRuns - 1,
           inflight := f :: s.inflight, uploading := s.uploading + 1,
           started := s.started ++ [f] }

/-- A task for `f` settles: `.then` / `.catch` record the outcome and
bump the counters, and `.then(run)` queues one more `run` invocation. -/
def settle (oracle : String → TaskResult) (s : St) (f : String) (rest : List String) : St :=
  match oracle f with
  | .ok k =>
    { s with inflight := rest, uploading := s.uploading - 1,
             pendingRuns := s.pendingRuns + 1, nSuccess := s.nSuccess + 1,
             success := s.success ++ [⟨f, k, false⟩] }
  | .err k m =>
    { s with inflight := rest, uploading := s.uploading - 1,
             pendingRuns := s.pendingRuns + 1, nFail := s.nFail + 1,
             fail := s.fail ++ [⟨f, k, m⟩] }

inductive Step (W : Nat) (oracle : String → TaskResult) : St → St → Prop
  | runEndEmpty (s : St) (hp : s.pendingRuns ≠ 0) (hq : s.queue = []) :
      Step W oracle s (endWorker W s)
  | runEndFalsy (s : St) (q' : List String) (hp : s.pendingRuns ≠ 0)
      (hq : s.queue = q' ++ [""]) :
      Step W oracle s { endWorker W s with queue := q' }
  | runPop (s : St) (q' : List String) (f : String) (hp : s.pendingRuns ≠ 0)
      (hq : s.queue = q' ++ [f]) (hf : f ≠ "") :
      Step W oracle s (startUpload s q' f)
  | complete (s : St) (f : String) (l1 l2 : List String)
      (hin : s.inflight = l1 ++ f :: l2) :
      Step W oracle s (settle oracle s f (l1 ++ l2))

def Reachable (W : Nat) (oracle : String → TaskResult) (files : List String) (s : St) : Prop :=
  Relation.ReflTransGen (Step W oracle) (init W files) s

/-- No pending `run` invocation and no task in flight: nothing can fire
any more. -/
def Terminal (s : St) : Prop := s.pendingRuns = 0 ∧ s.inflight = []

/-- The run invariant. -/
structure Inv (W : Nat) (oracle : String → TaskResult) (files : List String)
    (s : St) : Prop where
  worker_sum : s.pendingRuns + s.inflight.length + s.ended = W
  uploading_eq : s.uploading = s.inflight.length
  queue_started : List.Perm (s.queue ++ s.started) files
  started_split :
    List.Perm (s.inflight ++ s.success.map SuccessEntry.file
                ++ s.fail.map FailEntry.file) s.started
  ended_queue : s.ended ≠ 0 → s.queue = []
  resolved_iff : s.resolved = true ↔ s.ended = W
  success_ok : ∀ e ∈ s.success, oracle e.file = .ok e.key ∧ e.skipped = false
  fail_err : ∀ e ∈ s.fail, oracle e.file = .err e.key e.msg
  queue_ne : ∀ f ∈ s.queue, f ≠ ""
  nS_eq : s.nSuccess = s.success.length
  nF_eq : s.nFail = s.fail.length

theorem inv_init (W : Nat) (oracle : String → TaskResult) (files : List String)
    (hW : 1 ≤ W) (hne : "" ∉ files) : Inv W oracle files (init W files) where
  worker_sum := by simp [init]
  uploading_eq := rfl
  queue_started := by simp [init]
  started_split := by simp [init]
  ended_queue := by simp [init]
  resolved_iff := by
    constructor
    · intro h; simp [init] at h
    · intro h
      exfalso
      have : W = 0 := h.symm
      omega
  success_ok := by simp [init]
  fail_err := by simp [init]
  queue_ne := by
    intro f hf hfe
    subst hfe
    exact hne hf
  nS_eq := rfl
  nF_eq := rfl

theorem inv_step {W : Nat} {oracle : String → TaskResult} {files : List String}
    {s s' : St} (hstep : Step W oracle s s') (hinv : Inv W oracle files s) :
    Inv W oracle files s' := by
  obtain ⟨ws, ue, qs, ss, eq0, ri, so, fe, qn, ns0, nf0⟩ := hinv
  cases hstep with
  | runEndEmpty hp hq =>
    have hres : s.resolved = false := by
      cases hr : s.resolved with
      | false => rfl
      | true =>
        have hE := ri.mp hr
        omega
    exact {
      worker_sum := by
        show s.pendingRuns - 1 + s.inflight.length + (s.ended + 1) = W
        omega
      uploading_eq := ue
      queue_started := qs
      started_split := ss
      ended_queue := fun _ => hq
      resolved_iff := by
        show (s.resolved || (s.ended + 1 == W)) = true ↔ s.ended + 1 = W
        rw [hres]
        simp
      success_ok := so
      fail_err := fe
      queue_ne := qn
      nS_eq := ns0
      nF_eq := nf0 }
  | runEndFalsy q' hp hq =>
    exact absurd rfl (qn "" (by rw [hq]; simp))
  | runPop q' f hp hq hf =>
    have hq0 : s.ended = 0 := by
      by_contra hne0
      rw [eq0 hne0] at hq
      exact absurd hq.symm (by simp)
    exact {
      worker_sum := by
        show s.pendingRuns - 1 + (f :: s.inflight).length + s.ended = W
        simp only [List.length_cons]
        have hqlen : s.queue.length = q'.length + 1 := by rw [hq]; simp
        omega
      uploading_eq := by
        show s.uploading + 1 = (f :: s.inflight).length
        simp [ue]
      queue_started := by
        show List.Perm (q' ++ (s.started ++ [f])) files
        rw [List.perm_iff_count] at qs ⊢
        intro a
        have hc := qs a
        rw [hq] at hc
        simp only [List.count_append] at hc ⊢
        omega
      started_split := by
        show List.Perm ((f :: s.inflight) ++ s.success.map SuccessEntry.file
              ++ s.fail.map FailEntry.file) (s.started ++ [f])
        rw [List.perm_iff_count] at ss ⊢
        intro a
        have hc := ss a
        simp only [List.count_append, List.count_cons, List.count_nil] at hc ⊢
        omega
      ended_queue := fun hne0 => absurd hq0 hne0
      resolved_iff := ri
      success_ok := so
      fail_err := fe
      queue_ne := fun g hg => qn g (by rw [hq]; exact List.mem_append_left _ hg)
      nS_eq := ns0
      nF_eq := nf0 }
  | complete f l1 l2 hin =>
    have hilen : s.inflight.length = l1.length + l2.length + 1 := by
      rw [hin]; simp only [List.length_append, List.length_cons]; omega
    cases ho : oracle f with
    | ok k =>
      refine ⟨?_, ?_, ?_, ?_, ?_, ?_, ?_, ?_, ?_, ?_, ?_⟩ <;>
        simp only [settle, ho]
      · show s.pendingRuns + 1 + (l1 ++ l2).length + s.ended = W
        simp only [List.length_append]
        omega
      · show s.uploading - 1 = (l1 ++ l2).length
        simp only [List.length_append]
        omega
      · exact qs
      · show List.Perm ((l1 ++ l2) ++ (s.success ++ [SuccessEntry.mk f k false]).map SuccessEntry.file
              ++ s.fail.map FailEntry.file) s.started
        rw [List.perm_iff_count] at ss ⊢
        intro a
        have hc := ss a
        rw [hin] at hc
        simp only [List.count_append, List.count_cons, List.count_nil,
          List.map_append, List.map_cons, List.map_nil] at hc ⊢
        omega
      · exact eq0
      · exact ri
      · intro e he
        rcases List.mem_append.mp he with hold | hnew
        · exact so e hold
        · have he' : e = ⟨f, k, false⟩ := by simpa using hnew
          subst he'
          exact ⟨ho, rfl⟩
      · exact fe
      · exact qn
      · show s.nSuccess + 1 = (s.success ++ [SuccessEntry.mk f k false]).length
        simp [ns0]
      · exact nf0
    | err k m =>
      refine ⟨?_, ?_, ?_, ?_, ?_, ?_, ?_, ?_, ?_, ?_, ?_⟩ <;>
        simp only [settle, ho]
      · show s.pendingRuns + 1 + (l1 ++ l2).length + s.ended = W
        simp only [List.length_append]
        omega
      · show s.uploading - 1 = (l1 ++ l2).length
        simp only [List.length_append]
        omega
      · exact qs
      · show List.Perm ((l1 ++ l2) ++ s.success.map SuccessEntry.file
              ++ (s.fail ++ [FailEntry.mk f k m]).map FailEntry.file) s.started
        rw [List.perm_iff_count] at ss ⊢
        intro a
        have hc := ss a
        rw [hin] at hc
        simp only [List.count_append, List.count_cons, List.count_nil,
          List.map_append, List.map_cons, List.map_nil] at hc ⊢
        omega
      · exact eq0
      · exact ri
      · exact so
      · intro e he
        rcases List.mem_append.mp he with hold | hnew
        · exact fe e hold
        · have he' : e = ⟨f, k, m⟩ := by simpa using hnew
          subst he'
          exact ho
      · exact qn
      · exact ns0
      · show s.nFail + 1 = (s.fail ++ [FailEntry.mk f k m]).length
        simp [nf0]

theorem inv_reachable (W : Nat) (oracle : String → TaskResult) (files : List String)
    (hW : 1 ≤ W) (hne : "" ∉ files) (s : St) (hr : Reachable W oracle files s) :
    Inv W oracle files s := by
  induction hr with
  | refl => exact inv_init W oracle files hW hne
  | tail hab hbc ih => exact inv_step hbc ih

theorem terminal_state {W : Nat} {oracle : String → TaskResult} {files : List String}
    {s : St} (hW : 1 ≤ W) (hinv : Inv W oracle files s) (ht : Terminal s) :
    s.queue = [] ∧ s.ended = W ∧ s.resolved = true ∧
    List.Perm s.started files ∧
    List.Perm (s.success.map SuccessEntry.file ++ s.fail.map FailEntry.file) files := by
  obtain ⟨hp, hi⟩ := ht
  have hsum := hinv.worker_sum
  rw [hp, hi] at hsum
  simp only [List.length_nil] at hsum
  have hended : s.ended = W := by omega
  have hq : s.queue = [] := hinv.ended_queue (by omega)
  have hres : s.resolved = true := hinv.resolved_iff.mpr hended
  have hqs := hinv.queue_started
  rw [hq] at hqs
  simp only [List.nil_append] at hqs
  have hss := hinv.started_split
  rw [hi] at hss
  simp only [List.nil_append] at hss
  exact ⟨hq, hended, hres, hqs, hss.trans hqs⟩

/-- C1: at completion of a run over `N` distinct (nonempty) enumerated
files with at least one worker, every enumerated file appears exactly
once across the success and fail lists, no file's upload is started more
than once, the success count plus the fail count equals `N`, and the
run's promise has been resolved. -/
theorem start_one_outcome_per_file (W : Nat) (oracle : String → TaskResult)
    (files : List String) (s : St) (hW : 1 ≤ W) (hnd : files.Nodup)
    (hne : "" ∉ files) (hr : Reachable W oracle files s) (ht : Terminal s) :
    s.success.length + s.fail.length = files.length ∧
    (∀ f ∈ files,
      (s.success.map SuccessEntry.file ++ s.fail.map FailEntry.file).count f = 1) ∧
    (∀ f : String, s.started.count f ≤ 1) ∧
    s.resolved = true := by
  have hinv := inv_reachable W oracle files hW hne s hr
  obtain ⟨hq, hended, hres, hstart, houtc⟩ := terminal_state hW hinv ht
  refine ⟨?_, ?_, ?_, hres⟩
  · have hlen := houtc.length_eq
    simpa using hlen
  · intro f hf
    rw [houtc.count_eq f]
    exact List.count_eq_one_of_mem hnd hf
  · intro f
    rw [hstart.count_eq f]
    exact List.nodup_iff_count_le_one.mp hnd f

/-- Witness scaffolding for C1: a one-file run, stepped to completion. -/
def w1File : String := "/w/dist/x.js"

def w1Oracle : String → TaskResult := fun _ => TaskResult.ok "x.js"

def w1s1 : St := startUpload (init 1 [w1File]) [] w1File

def w1s2 : St := settle w1Oracle w1s1 w1File ([] ++ [])

def w1s3 : St := endWorker 1 w1s2

theorem w1_reach : Reachable 1 w1Oracle [w1File] w1s3 := by
  have h1 : Step 1 w1Oracle (init 1 [w1File]) w1s1 :=
    Step.runPop (init 1 [w1File]) [] w1File (by decide) rfl (by decide)
  have h2 : Step 1 w1Oracle w1s1 w1s2 :=
    Step.complete w1s1 w1File [] [] rfl
  have h3 : Step 1 w1Oracle w1s2 w1s3 :=
    Step.runEndEmpty w1s2 (by decide) (by decide)
  exact Relation.ReflTransGen.head h1 (Relation.ReflTransGen.head h2
    (Relation.ReflTransGen.single h3))

/-- Witness for C1: the one-file run above. -/
theorem start_one_outcome_per_file_witness :
    w1s3.success.length + w1s3.fail.length = 1 ∧
    (∀ f ∈ [w1File],
      (w1s3.success.map SuccessEntry.file ++ w1s3.fail.map FailEntry.file).count f = 1) ∧
    (∀ f : String, w1s3.started.count f ≤ 1) ∧
    w1s3.resolved = true := by
  have h := start_one_outcome_per_file 1 w1Oracle [w1File] w1s3 (by omega)
    (by simp) (by decide) w1_reach ⟨by decide, by decide⟩
  simpa using h

/-- C2: in every reachable state of a run with worker count `W`, the
number of uploads in flight (`stats.uploading`) never exceeds `W`. -/
theorem uploading_never_exceeds_workers (W : Nat) (oracle : String → TaskResult)
    (files : List String) (s : St) (hW : 1 ≤ W) (hne : "" ∉ files)
    (hr : Reachable W oracle files s) : s.uploading ≤ W := by
  have hinv := inv_reachable W oracle files hW hne s hr
  have h1 := hinv.worker_sum
  have h2 := hinv.uploading_eq
  omega

/-- Witness for C2: mid-run state of the one-file run, with one upload
in flight and `W = 1`. -/
theorem uploading_never_exceeds_workers_witness : w1s1.uploading ≤ 1 := by
  have h1 : Step 1 w1Oracle (init 1 [w1File]) w1s1 :=
    Step.runPop (init 1 [w1File]) [] w1File (by decide) rfl (by decide)
  exact uploading_never_exceeds_workers 1 w1Oracle [w1File] w1s1 (by omega)
    (by decide) (Relation.ReflTransGen.single h1)

theorem settle_measure (oracle : String → TaskResult) (s : St) (f : String)
    (rest : List String) :
    (settle oracle s f rest).queue = s.queue ∧
    (settle oracle s f rest).inflight = rest ∧
    (settle oracle s f rest).pendingRuns = s.pendingRuns + 1 := by
  cases ho : oracle f <;> simp [settle, ho]

/-- From any invariant-satisfying state, the pool can always run to a
terminal state: no configuration gets stuck. -/
theorem exists_terminal (W : Nat) (oracle : String → TaskResult) (files : List String)
    (hW : 1 ≤ W) :
    ∀ (n : Nat) (s : St),
      2 * s.queue.length + 2 * s.inflight.length + s.pendingRuns ≤ n →
      Inv W oracle files s →
      ∃ t, Relation.ReflTransGen (Step W oracle) s t ∧ Terminal t ∧
        Inv W oracle files t := by
  intro n
  induction n with
  | zero =>
    intro s hm hinv
    have hp : s.pendingRuns = 0 := by omega
    have hi : s.inflight = [] := List.eq_nil_of_length_eq_zero (by omega)
    exact ⟨s, Relation.ReflTransGen.refl, ⟨hp, hi⟩, hinv⟩
  | succ n ih =>
    intro s hm hinv
    by_cases hp : s.pendingRuns = 0
    · cases hi : s.inflight with
      | nil => exact ⟨s, Relation.ReflTransGen.refl, ⟨hp, hi⟩, hinv⟩
      | cons f rest =>
        have hstep : Step W oracle s (settle oracle s f ([] ++ rest)) :=
          Step.complete s f [] rest (by rw [hi]; rfl)
        have hinv' := inv_step hstep hinv
        obtain ⟨hq', hi', hp'⟩ := settle_measure oracle s f ([] ++ rest)
        have hm' : 2 * (settle oracle s f ([] ++ rest)).queue.length +
            2 * (settle oracle s f ([] ++ rest)).inflight.length +
            (settle oracle s f ([] ++ rest)).pendingRuns ≤ n := by
          rw [hq', hi', hp']
          have : s.inflight.length = rest.length + 1 := by rw [hi]; rfl
          simp only [List.nil_append]
          omega
        obtain ⟨t, hpath, ht, hinvT⟩ := ih _ hm' hinv'
        exact ⟨t, Relation.ReflTransGen.head hstep hpath, ht, hinvT⟩
    · rcases List.eq_nil_or_concat s.queue with hq | ⟨q', f, hq⟩
      · have hstep : Step W oracle s (endWorker W s) := Step.runEndEmpty s hp hq
        have hinv' := inv_step hstep hinv
        have hm' : 2 * (endWorker W s).queue.length +
            2 * (endWorker W s).inflight.length + (endWorker W s).pendingRuns ≤ n := by
          show 2 * s.queue.length + 2 * s.inflight.length + (s.pendingRuns - 1) ≤ n
          omega
        obtain ⟨t, hpath, ht, hinvT⟩ := ih _ hm' hinv'
        exact ⟨t, Relation.ReflTransGen.head hstep hpath, ht, hinvT⟩
      · rw [List.concat_eq_append] at hq
        have hf : f ≠ "" := hinv.queue_ne f (by rw [hq]; simp)
        have hstep : Step W oracle s (startUpload s q' f) := Step.runPop s q' f hp hq hf
        have hinv' := inv_step hstep hinv
        have hm' : 2 * (startUpload s q' f).queue.length +
            2 * (startUpload s q' f).inflight.length +
            (startUpload s q' f).pendingRuns ≤ n := by
          show 2 * q'.length + 2 * (f :: s.inflight).length + (s.pendingRuns - 1) ≤ n
          have hqlen : s.queue.length = q'.length + 1 := by rw [hq]; simp
          simp only [List.length_cons]
          omega
        obtain ⟨t, hpath, ht, hinvT⟩ := ih _ hm' hinv'
        exact ⟨t, Relation.ReflTransGen.head hstep hpath, ht, hinvT⟩

/-- C4: in any reachable state, when an in-flight upload task for `f`
settles as a failure (rejected promise), the `.catch` handler records
`{file, key, msg}` at the end of the fail list and this is an ordinary
step of the pool — the run is not aborted: from the resulting state the
pool still runs to a terminal, resolved state in which every enumerated
file has exactly one outcome. -/
theorem upload_error_recorded_and_run_completes (W : Nat)
    (oracle : String → TaskResult) (files : List String) (s : St)
    (hW : 1 ≤ W) (hne : "" ∉ files) (hr : Reachable W oracle files s)
    (f k m : String) (l1 l2 : List String)
    (hin : s.inflight = l1 ++ f :: l2) (ho : oracle f = TaskResult.err k m) :
    Step W oracle s (settle oracle s f (l1 ++ l2)) ∧
    (settle oracle s f (l1 ++ l2)).fail = s.fail ++ [FailEntry.mk f k m] ∧
    ∃ t, Relation.ReflTransGen (Step W oracle) (settle oracle s f (l1 ++ l2)) t ∧
      Terminal t ∧ t.resolved = true ∧
      t.success.length + t.fail.length = files.length := by
  have hstep : Step W oracle s (settle oracle s f (l1 ++ l2)) :=
    Step.complete s f l1 l2 hin
  have hfail : (settle oracle s f (l1 ++ l2)).fail = s.fail ++ [FailEntry.mk f k m] := by
    simp [settle, ho]
  have hinv := inv_reachable W oracle files hW hne s hr
  have hinv' := inv_step hstep hinv
  obtain ⟨t, hpath, ht, hinvT⟩ := exists_terminal W oracle files hW
    (2 * (settle oracle s f (l1 ++ l2)).queue.length +
      2 * (settle oracle s f (l1 ++ l2)).inflight.length +
      (settle oracle s f (l1 ++ l2)).pendingRuns)
    (settle oracle s f (l1 ++ l2)) le_rfl hinv'
  obtain ⟨hqT, hendT, hresT, hstartT, houtT⟩ := terminal_state hW hinvT ht
  refine ⟨hstep, hfail, t, hpath, ht, hresT, ?_⟩
  have hlen := houtT.length_eq
  simpa using hlen

/-- Witness scaffolding for C4: a one-file run whose only upload fails. -/
def w2File : String := "/w/dist/y.js"

def w2Oracle : String → TaskResult := fun _ => TaskResult.err "y.js" "boom"

def w2s1 : St := startUpload (init 1 [w2File]) [] w2File

/-- Witness for C4: in the mid-run state with `y.js` in flight and a
failing oracle, the failure is recorded and the run still completes. -/
theorem upload_error_recorded_and_run_completes_witness :
    Step 1 w2Oracle w2s1 (settle w2Oracle w2s1 w2File ([] ++ [])) ∧
    (settle w2Oracle w2s1 w2File ([] ++ [])).fail
      = w2s1.fail ++ [FailEntry.mk w2File "y.js" "boom"] ∧
    ∃ t, Relation.ReflTransGen (Step 1 w2Oracle)
        (settle w2Oracle w2s1 w2File ([] ++ [])) t ∧
      Terminal t ∧ t.resolved = true ∧
      t.success.length + t.fail.length = ([w2File] : List String).length := by
  have h1 : Step 1 w2Oracle (init 1 [w2File]) w2s1 :=
    Step.runPop (init 1 [w2File]) [] w2File (by decide) rfl (by decide)
  exact upload_error_recorded_and_run_completes 1 w2Oracle [w2File] w2s1
    (by omega) (by decide) (Relation.ReflTransGen.single h1)
    w2File "y.js" "boom" [] [] rfl rfl

/-- At a terminal state the success files are exactly (a permutation of)
the enumerated files whose task resolves, and the fail files exactly
those whose task rejects. -/
theorem terminal_outcome_partition {W : Nat} {oracle : String → TaskResult}
    {files : List String} {s : St} (hW : 1 ≤ W) (hinv : Inv W oracle files s)
    (ht : Terminal s) :
    List.Perm (s.success.map SuccessEntry.file)
      (files.filter fun f => (oracle f).isOk) ∧
    List.Perm (s.fail.map FailEntry.file)
      (files.filter fun f => !(oracle f).isOk) := by
  obtain ⟨-, -, -, -, houtc⟩ := terminal_state hW hinv ht
  constructor
  · have hp := houtc.filter (fun f => (oracle f).isOk)
    rw [List.filter_append] at hp
    have h1 : (s.success.map SuccessEntry.file).filter (fun f => (oracle f).isOk)
        = s.success.map SuccessEntry.file := by
      rw [List.filter_eq_self]
      intro a ha
      obtain ⟨e, he, rfl⟩ := List.mem_map.mp ha
      rw [(hinv.success_ok e he).1]
      rfl
    have h2 : (s.fail.map FailEntry.file).filter (fun f => (oracle f).isOk) = [] := by
      rw [List.filter_eq_nil_iff]
      intro a ha
      obtain ⟨e, he, rfl⟩ := List.mem_map.mp ha
      rw [hinv.fail_err e he]
      simp [TaskResult.isOk]
    rw [h1, h2, List.append_nil] at hp
    exact hp
  · have hp := houtc.filter (fun f => !(oracle f).isOk)
    rw [List.filter_append] at hp
    have h1 : (s.success.map SuccessEntry.file).filter (fun f => !(oracle f).isOk)
        = [] := by
      rw [List.filter_eq_nil_iff]
      intro a ha
      obtain ⟨e, he, rfl⟩ := List.mem_map.mp ha
      rw [(hinv.success_ok e he).1]
      simp [TaskResult.isOk]
    have h2 : (s.fail.map FailEntry.file).filter (fun f => !(oracle f).isOk)
        = s.fail.map FailEntry.file := by
      rw [List.filter_eq_self]
      intro a ha
      obtain ⟨e, he, rfl⟩ := List.mem_map.mp ha
      rw [hinv.fail_err e he]
      rfl
    rw [h1, h2, List.nil_append] at hp
    exact hp

/-! ### The 3-file / W = 2 / status-599 scenario (C8) -/

def fileA : String := "/cwd/dist/a.js"

def fileB : String := "/cwd/dist/b.js"

def fileC : String := "/cwd/dist/c.js"

def demoFiles : List String := [fileA, fileB, fileC]

/-- `a.js`'s upload completes with remote status 599 and no `error` field
in the response body; the other two complete with status 200. -/
def demoRespInfo (f : String) : RespInfo :=
  if f = fileA then ⟨599, none⟩ else ⟨200, none⟩

/-- Each file's task outcome, computed by the `putFile` callback logic on
the key produced by the key mapper (resolved base `/cwd/dist`). -/
def demoOracle (f : String) : TaskResult :=
  taskOutcome (mapKey (resolveBase "/cwd/dist") f) none (demoRespInfo f)

/-- C8: for a run over the 3 files with `parallelCount = 2` in which
exactly `a.js`'s upload completes with status 599 (no `error` field) and
the other two succeed, every completed run reports exactly 2 successes
and 1 failure, and the failure entry carries `a.js`'s path and the
message `code: 599`. -/
theorem scenario_599 (s : St) (hr : Reachable 2 demoOracle demoFiles s)
    (ht : Terminal s) :
    s.success.length = 2 ∧ s.fail.length = 1 ∧
    s.fail = [FailEntry.mk fileA "a.js" "code: 599"] := by
  have hinv := inv_reachable 2 demoOracle demoFiles (by omega) (by decide) s hr
  obtain ⟨hsp, hfp⟩ := terminal_outcome_partition (by omega) hinv ht
  have hfilterOk : demoFiles.filter (fun f => (demoOracle f).isOk) = [fileB, fileC] := by
    decide
  have hfilterErr : demoFiles.filter (fun f => !(demoOracle f).isOk) = [fileA] := by
    decide
  rw [hfilterOk] at hsp
  rw [hfilterErr] at hfp
  have hslen : s.success.length = 2 := by
    have hlen := hsp.length_eq
    simpa using hlen
  have hfm : s.fail.map FailEntry.file = [fileA] := List.perm_singleton.mp hfp
  cases hfe : s.fail with
  | nil => rw [hfe] at hfm; simp at hfm
  | cons e rest =>
    rw [hfe] at hfm
    simp only [List.map_cons, List.cons.injEq, List.map_eq_nil_iff] at hfm
    obtain ⟨hef, hrest⟩ := hfm
    have hmem : e ∈ s.fail := by rw [hfe]; exact List.mem_cons_self e rest
    have herr := hinv.fail_err e hmem
    rw [hef] at herr
    have hA : demoOracle fileA = TaskResult.err "a.js" "code: 599" := by decide
    rw [hA] at herr
    obtain ⟨hek, hem⟩ : "a.js" = e.key ∧ "code: 599" = e.msg := by
      injection herr with hk hm2
      exact ⟨hk, hm2⟩
    have he : e = FailEntry.mk fileA "a.js" "code: 599" := by
      cases e
      simp_all
    refine ⟨hslen, by simp [hrest], ?_⟩
    rw [hrest, he]

/-- Witness scaffolding for C8: one complete schedule of the scenario run
(`pop` takes files from the end of the queue, so `c.js` starts first). -/
def st1 : St := startUpload (init 2 demoFiles) [fileA, fileB] fileC

def st2 : St := startUpload st1 [fileA] fileB

def st3 : St := settle demoOracle st2 fileC ([fileB] ++ [])

def st4 : St := startUpload st3 [] fileA

def st5 : St := settle demoOracle st4 fileB ([fileA] ++ [])

def st6 : St := endWorker 2 st5

def st7 : St := settle demoOracle st6 fileA ([] ++ [])

def st8 : St := endWorker 2 st7

/-- Witness for C8: the schedule above reaches a terminal state. -/
theorem scenario_599_witness :
    st8.success.length = 2 ∧ st8.fail.length = 1 ∧
    st8.fail = [FailEntry.mk fileA "a.js" "code: 599"] := by
  have h1 : Step 2 demoOracle (init 2 demoFiles) st1 :=
    Step.runPop (init 2 demoFiles) [fileA, fileB] fileC (by decide) rfl (by decide)
  have h2 : Step 2 demoOracle st1 st2 :=
    Step.runPop st1 [fileA] fileB (by decide) rfl (by decide)
  have h3 : Step 2 demoOracle st2 st3 :=
    Step.complete st2 fileC [fileB] [] rfl
  have h4 : Step 2 demoOracle st3 st4 :=
    Step.runPop st3 [] fileA (by decide) (by decide) (by decide)
  have h5 : Step 2 demoOracle st4 st5 :=
    Step.complete st4 fileB [fileA] [] (by decide)
  have h6 : Step 2 demoOracle st5 st6 :=
    Step.runEndEmpty st5 (by decide) (by decide)
  have h7 : Step 2 demoOracle st6 st7 :=
    Step.complete st6 fileA [] [] (by decide)
  have h8 : Step 2 demoOracle st7 st8 :=
    Step.runEndEmpty st7 (by decide) (by decide)
  exact scenario_599 st8
    (Relation.ReflTransGen.head h1 (Relation.ReflTransGen.head h2
      (Relation.ReflTransGen.head h3 (Relation.ReflTransGen.head h4
      (Relation.ReflTransGen.head h5 (Relation.ReflTransGen.head h6
      (Relation.ReflTransGen.head h7 (Relation.ReflTransGen.single h8))))))))
    ⟨by decide, by decide⟩

end SimpleQiniuUpload
